import Mathlib

/-!
Verification of the invoice-normalization core of the Invoice Data Extraction
System (backend/app/utils/currency.py and the flagging step of
backend/app/services/invoice_service.py).

Modelling conventions:
* Python floats are modelled by `ℚ`; the baseline exchange rates and the
  fixed thresholds/confidences are the exact decimal literals of the source.
* Python `round(x, 2)` and the `.2f` format rounding are modelled by
  round-half-to-even on `ℚ` scaled by 100 (`roundHalfEven`, `round2`).
* Python dicts (with insertion order) are modelled by association lists
  (`List (String × _)`) with first-match lookup `dictGet`; the source's
  dicts have unique keys, except for the literal duplicate key `'kr'` in
  `CURRENCY_SYMBOLS`, which Python resolves as: the key keeps its first
  insertion position and the last value (`'NOK'`).
* Each regular expression of `CURRENCY_PATTERNS` is an alternation of
  literal fragments, except `\$(?!\s)` (a dollar sign not followed by
  whitespace), modelled by the dedicated alternative `Alt.dollarNoWs`.
  `re.search(p, t, re.IGNORECASE)` succeeds iff some alternative occurs
  somewhere in the text, compared case-insensitively.
* Invoice records are structures whose fields are the keys the core reads
  or writes, each `Option`-valued to model key absence.
-/

/-- Whitespace characters recognised by Python's regex class `\s`
(used only by the negative lookahead in the `USD` detection pattern). -/
def isPySpace (c : Char) : Bool :=
  c = ' ' || c = '\t' || c = '\n' || c = '\r' || c = '\x0b' || c = '\x0c' ||
  c = '\x1c' || c = '\x1d' || c = '\x1e' || c = '\x1f' || c = '\x85' || c = '\xa0'

/-- `needle` occurs as a contiguous substring of `hay` (case-sensitive). -/
def strContains (hay needle : String) : Bool :=
  decide (List.IsInfix needle.toList hay.toList)

/-- Case-insensitive substring occurrence, modelling `re.IGNORECASE` for a
literal fragment and the `name in text_lower` checks of the source. -/
def ciContains (hay needle : String) : Bool :=
  strContains hay.toLower needle.toLower

/-- Round a rational to the nearest integer, ties to even — the rounding of
Python's builtin `round` and of `format` with `.2f` (banker's rounding). -/
def roundHalfEven (q : ℚ) : ℤ :=
  let n := ⌊q⌋
  let frac := q - n
  if frac < 1/2 then n
  else if 1/2 < frac then n + 1
  else if n % 2 = 0 then n else n + 1

/-- Python's `round(x, 2)`. -/
def round2 (q : ℚ) : ℚ :=
  (roundHalfEven (q * 100) : ℚ) / 100

/-- First-match lookup in an association list: the semantics of reading a
Python dict with string keys. -/
def dictGet {α : Type} : List (String × α) → String → Option α
  | [], _ => none
  | (k, v) :: rest, c => if k = c then some v else dictGet rest c

/-- `CURRENCY_SYMBOLS` of currency.py lines 13-28. The source dict literal
writes the key `'kr'` twice (`'kr': 'SEK'` then `'kr': 'NOK'`): in Python
the key keeps its first position with the last value, so the dict holds a
single entry `'kr' ↦ 'NOK'` in the position of the first write. -/
def CURRENCY_SYMBOLS : List (String × String) :=
  [("$", "USD"), ("€", "EUR"), ("£", "GBP"), ("¥", "JPY"), ("₹", "INR"),
   ("C$", "CAD"), ("A$", "AUD"), ("NZ$", "NZD"), ("kr", "NOK"), ("CHF", "CHF"),
   ("R$", "BRL"), ("₽", "RUB"), ("R", "ZAR")]

/-- `CURRENCY_NAMES` of currency.py lines 30-52, in dict insertion order. -/
def CURRENCY_NAMES : List (String × String) :=
  [("dollar", "USD"), ("usd", "USD"), ("us dollar", "USD"),
   ("euro", "EUR"), ("eur", "EUR"),
   ("pound", "GBP"), ("gbp", "GBP"), ("british pound", "GBP"),
   ("yen", "JPY"), ("jpy", "JPY"), ("japanese yen", "JPY"),
   ("canadian dollar", "CAD"), ("cad", "CAD"),
   ("australian dollar", "AUD"), ("aud", "AUD"),
   ("swiss franc", "CHF"), ("chf", "CHF"),
   ("yuan", "CNY"), ("cny", "CNY"),
   ("rupee", "INR"), ("inr", "INR")]

/-- `EXCHANGE_RATES` of currency.py lines 54-71: units of each currency per
one USD. -/
def EXCHANGE_RATES : List (String × ℚ) :=
  [("USD", 1.0), ("EUR", 0.92), ("GBP", 0.79), ("JPY", 149.50),
   ("CAD", 1.36), ("AUD", 1.53), ("CHF", 0.89), ("CNY", 7.24),
   ("INR", 83.12), ("MXN", 17.05), ("BRL", 4.97), ("RUB", 98.50),
   ("ZAR", 18.50), ("NOK", 10.48), ("SEK", 10.35), ("NZD", 1.62)]

/-- One alternative of a detection regex: a literal fragment (matched
case-insensitively anywhere in the text), or the construct `\$(?!\s)` —
a dollar sign not immediately followed by a whitespace character. -/
inductive Alt : Type
  | lit (s : String)
  | dollarNoWs
deriving DecidableEq

/-- Scan for a `'$'` whose following character (if any) is not whitespace:
the semantics of `re.search` for the `\$(?!\s)` alternative. -/
def hasDollarNoWs : List Char → Bool
  | [] => false
  | '$' :: rest =>
      (match rest with
       | [] => true
       | c :: _ => !isPySpace c) || hasDollarNoWs rest
  | _ :: rest => hasDollarNoWs rest

/-- Whether one regex alternative matches somewhere in the text. -/
def altMatches (t : String) : Alt → Bool
  | .lit s => ciContains t s
  | .dollarNoWs => hasDollarNoWs t.toList

/-- Whether a whole detection regex (an alternation) matches somewhere in
the text, case-insensitively: the truth value of
`re.search(pattern, text, re.IGNORECASE)`. -/
def patternMatches (alts : List Alt) (t : String) : Bool :=
  alts.any (altMatches t)

/-- `CURRENCY_PATTERNS` of currency.py lines 73-90, each regex decomposed
into its alternation of literal fragments (plus `Alt.dollarNoWs` for
`\$(?!\s)` in the USD pattern). -/
def CURRENCY_PATTERNS : List (List Alt × String) :=
  [([.lit "USD", .dollarNoWs, .lit "US$"], "USD"),
   ([.lit "EUR", .lit "€", .lit "Euro"], "EUR"),
   ([.lit "GBP", .lit "£", .lit "British Pound"], "GBP"),
   ([.lit "JPY", .lit "¥", .lit "Japanese Yen"], "JPY"),
   ([.lit "CAD", .lit "C$", .lit "Canadian"], "CAD"),
   ([.lit "AUD", .lit "A$", .lit "Australian"], "AUD"),
   ([.lit "CHF", .lit "Swiss Franc"], "CHF"),
   ([.lit "CNY", .lit "Yuan", .lit "RMB"], "CNY"),
   ([.lit "INR", .lit "₹", .lit "Rupee"], "INR"),
   ([.lit "MXN", .lit "Mexican Peso"], "MXN"),
   ([.lit "BRL", .lit "R$", .lit "Brazilian"], "BRL"),
   ([.lit "RUB", .lit "₽", .lit "Russian"], "RUB"),
   ([.lit "ZAR", .lit "South African"], "ZAR"),
   ([.lit "NOK", .lit "Norwegian Krone"], "NOK"),
   ([.lit "SEK", .lit "Swedish Krona"], "SEK"),
   ([.lit "NZD", .lit "New Zealand"], "NZD")]

/-- The pattern-list loop of `detect_currency` (currency.py lines 109-112):
first pattern in list order that matches the text wins. -/
def scanPatterns : List (List Alt × String) → String → Option String
  | [], _ => none
  | (alts, code) :: rest, t =>
      if patternMatches alts t then some code else scanPatterns rest t

/-- The name-alias loop of `detect_currency` (lines 114-117): first alias
(in dict insertion order) occurring in the lowercased text wins.  The
argument is the already-lowercased text. -/
def scanNames : List (String × String) → String → Option String
  | [], _ => none
  | (name, code) :: rest, lowered =>
      if strContains lowered name then some code else scanNames rest lowered

/-- The symbol loop of `detect_currency` (lines 119-122): first symbol
occurring literally (case-sensitively) in the text wins. -/
def scanSymbols : List (String × String) → String → Option String
  | [], _ => none
  | (sym, code) :: rest, t =>
      if strContains t sym then some code else scanSymbols rest t

/-- `detect_currency` of currency.py lines 93-125. -/
def detect_currency (text : String) : String × ℚ :=
  if text = "" then ("USD", 0.5)
  else
    match scanPatterns CURRENCY_PATTERNS text with
    | some code => (code, 0.9)
    | none =>
      match scanNames CURRENCY_NAMES text.toLower with
      | some code => (code, 0.85)
      | none =>
        match scanSymbols CURRENCY_SYMBOLS text with
        | some code => (code, 0.88)
        | none => ("USD", 0.5)

/-- The local symbol table of `get_currency_symbol` (currency.py
lines 138-155). -/
def CURRENCY_DISPLAY_SYMBOLS : List (String × String) :=
  [("USD", "$"), ("EUR", "€"), ("GBP", "£"), ("JPY", "¥"), ("CAD", "C$"),
   ("AUD", "A$"), ("CHF", "CHF"), ("CNY", "¥"), ("INR", "₹"), ("MXN", "$"),
   ("BRL", "R$"), ("RUB", "₽"), ("ZAR", "R"), ("NOK", "kr"), ("SEK", "kr"),
   ("NZD", "NZ$")]

/-- `get_currency_symbol` of currency.py lines 128-156: table lookup,
falling back to the code itself. -/
def get_currency_symbol (currency_code : String) : String :=
  (dictGet CURRENCY_DISPLAY_SYMBOLS currency_code).getD currency_code

/-- `convert_currency` of currency.py lines 159-191. -/
def convert_currency (amount : ℚ) (from_currency : String)
    (to_currency : String := "USD") : ℚ :=
  if from_currency = to_currency then amount
  else
    match dictGet EXCHANGE_RATES from_currency,
          dictGet EXCHANGE_RATES to_currency with
    | some from_rate, some to_rate =>
        let amount_in_usd :=
          if from_currency ≠ "USD" then amount / from_rate else amount
        round2 (amount_in_usd * to_rate)
    | _, _ => amount

/-- Insert a thousands separator every three digits, counting from the
right; the input and output digit lists are little-endian (least
significant digit first). -/
def groupRev : List Char → List Char
  | d1 :: d2 :: d3 :: d4 :: rest => d1 :: d2 :: d3 :: ',' :: groupRev (d4 :: rest)
  | l => l

/-- Render a two-digit fraction part, left-padded with a zero. -/
def twoDigitStr (n : Nat) : String :=
  if n < 10 then "0" ++ Nat.repr n else Nat.repr n

/-- Python's fixed-point rendering `f"{a:,.2f}"` (when `grouped`) or
`f"{a:.2f}"` (otherwise): round to cents half-to-even, then print the
integer part (with thousands separators when `grouped`), a point, and
exactly two fraction digits. -/
def renderFixed2 (amount : ℚ) (grouped : Bool) : String :=
  let cents := roundHalfEven (amount * 100)
  let sign := if cents < 0 then "-" else ""
  let ipDigits := (Nat.repr (cents.natAbs / 100)).toList
  let ipStr : String := ⟨if grouped then (groupRev ipDigits.reverse).reverse else ipDigits⟩
  sign ++ ipStr ++ "." ++ twoDigitStr (cents.natAbs % 100)

/-- `format_currency` of currency.py lines 194-212. -/
def format_currency (amount : ℚ) (currency_code : String)
    (include_symbol : Bool := true) : String :=
  let formatted := if amount ≥ 1000 then renderFixed2 amount true
                   else renderFixed2 amount false
  if include_symbol then get_currency_symbol currency_code ++ formatted
  else formatted ++ " " ++ currency_code

/-- A line item of an invoice record: the keys the core reads
(`description`, `cost`) or writes (`cost_formatted`, `cost_usd`), each
optional to model key absence in the Python dict. -/
structure LineItem : Type where
  description : Option String
  cost : Option ℚ
  cost_formatted : Option String
  cost_usd : Option ℚ
deriving DecidableEq

/-- An invoice record: the keys the core reads or writes, each optional to
model key absence in the Python dict. -/
structure Invoice : Type where
  vendor_name : Option String
  invoice_number : Option String
  invoice_date : Option String
  total_amount : Option ℚ
  line_items : Option (List LineItem)
  currency : Option String
  currency_confidence : Option ℚ
  currency_symbol : Option String
  total_amount_formatted : Option String
  total_amount_usd : Option ℚ
  flagged : Option Bool
deriving DecidableEq

/-- The detection text blob of `normalize_currency_data` (currency.py
lines 264-268): vendor name, invoice number and date joined by spaces,
each replaced by `''` when absent. -/
def invoice_detection_text (inv : Invoice) : String :=
  String.intercalate " "
    [inv.vendor_name.getD "", inv.invoice_number.getD "", inv.invoice_date.getD ""]

/-- The per-line-item enrichment of `normalize_currency_data` (currency.py
lines 288-291): a line item with a `cost` key gains `cost_formatted` and
`cost_usd`; one without is left untouched. -/
def enrich_line_item (detected : String) (item : LineItem) : LineItem :=
  match item.cost with
  | some c =>
      { item with
        cost_formatted := some (format_currency c detected true)
        cost_usd := some (convert_currency c detected "USD") }
  | none => item

/-- `normalize_currency_data` of currency.py lines 252-293. -/
def normalize_currency_data (inv : Invoice) : Invoice :=
  let det := detect_currency (invoice_detection_text inv)
  let detected := det.1
  let inv1 :=
    { inv with
      currency := some detected
      currency_confidence := some det.2
      currency_symbol := some (get_currency_symbol detected) }
  let inv2 :=
    match inv1.total_amount with
    | some ta =>
        { inv1 with
          total_amount_formatted := some (format_currency ta detected true)
          total_amount_usd := some (convert_currency ta detected "USD") }
    | none => inv1
  match inv2.line_items with
  | some items =>
      { inv2 with line_items := some (items.map (enrich_line_item detected)) }
  | none => inv2

/-- `FLAGGED_AMOUNT_THRESHOLD` of invoice_service.py line 18. -/
def FLAGGED_AMOUNT_THRESHOLD : ℚ := 5000.0

/-- The comparison amount of invoice_service.py line 86: `total_amount_usd`,
falling back to `total_amount`, falling back to `0`. -/
def usd_equivalent (inv : Invoice) : ℚ :=
  (inv.total_amount_usd.getD (inv.total_amount.getD 0))

/-- The pure tail of `_process_single_invoice` (invoice_service.py
lines 84-88): normalize the extracted record, then set `flagged` to whether
the USD-equivalent total strictly exceeds the threshold.  (PDF validation,
text extraction and the language-model call are external collaborators and
precede this step.) -/
def process_invoice_record (extracted : Invoice) : Invoice :=
  let d := normalize_currency_data extracted
  { d with flagged := some (decide (usd_equivalent d > FLAGGED_AMOUNT_THRESHOLD)) }

/-- Per-currency entry of `currency_breakdown` (currency.py line 322). -/
structure CurrencyStats : Type where
  count : Nat
  total : ℚ
  average : ℚ
deriving DecidableEq

/-- The summary object returned by `get_multi_currency_summary`.  The
`currencies_detected` field is optional because the empty-input branch of
the source (lines 306-311) returns a dict without that key. -/
structure Summary : Type where
  total_by_currency : List (String × ℚ)
  total_in_usd : ℚ
  currency_breakdown : List (String × CurrencyStats)
  currencies_detected : Option (List String)
deriving DecidableEq

/-- `totals_by_currency[currency] += amount` on the association list: the
key is present whenever the source executes this line. -/
def incTotal : List (String × ℚ) → String → ℚ → List (String × ℚ)
  | [], _, _ => []
  | (k, v) :: rest, c, a =>
      if k = c then (k, v + a) :: rest else (k, v) :: incTotal rest c a

/-- `currency_breakdown[currency]['count'] += 1` and `['total'] += amount`
on the association list. -/
def incStats : List (String × CurrencyStats) → String → ℚ →
    List (String × CurrencyStats)
  | [], _, _ => []
  | (k, s) :: rest, c, a =>
      if k = c then (k, ⟨s.count + 1, s.total + a, s.average⟩) :: rest
      else (k, s) :: incStats rest c a

/-- `invoice.get('currency', 'USD')` (currency.py line 317). -/
def currOf (inv : Invoice) : String := inv.currency.getD "USD"

/-- `invoice.get('total_amount', 0)` (currency.py line 318). -/
def amtOf (inv : Invoice) : ℚ := inv.total_amount.getD 0

/-- Body of the accumulation loop of `get_multi_currency_summary`
(currency.py lines 316-326): insert zero entries for a new currency, then
add the invoice's amount and bump the count. -/
def summaryStep (acc : List (String × ℚ) × List (String × CurrencyStats))
    (inv : Invoice) : List (String × ℚ) × List (String × CurrencyStats) :=
  let currency := currOf inv
  let amount := amtOf inv
  let acc' :=
    if (dictGet acc.1 currency).isSome then acc
    else (acc.1 ++ [(currency, 0)], acc.2 ++ [(currency, ⟨0, 0, 0⟩)])
  (incTotal acc'.1 currency amount, incStats acc'.2 currency amount)

/-- `get_multi_currency_summary` of currency.py lines 296-345. -/
def get_multi_currency_summary (invoices : List Invoice) : Summary :=
  if invoices.isEmpty then
    { total_by_currency := []
      total_in_usd := 0.0
      currency_breakdown := []
      currencies_detected := none }
  else
    let acc := invoices.foldl summaryStep ([], [])
    let totals := acc.1
    let total_in_usd :=
      totals.foldl (fun s p => s + convert_currency p.2 p.1 "USD") 0
    let breakdown :=
      acc.2.map (fun p =>
        (p.1, { p.2 with
                average := if p.2.count > 0 then round2 (p.2.total / p.2.count)
                           else 0 }))
    { total_by_currency := totals.map (fun p => (p.1, round2 p.2))
      total_in_usd := round2 total_in_usd
      currency_breakdown := breakdown
      currencies_detected := some (totals.map Prod.fst) }

/-- The condition of the unknown-rate fallback branch of `convert_currency`
(currency.py line 181): reached only for distinct codes at least one of
which has no entry in the rate table. -/
def usedUnknownRateFallback (from_currency to_currency : String) : Bool :=
  from_currency ≠ to_currency &&
  ((dictGet EXCHANGE_RATES from_currency).isNone ||
   (dictGet EXCHANGE_RATES to_currency).isNone)

/-- Specification-side: raw summed amount of the invoices carrying
currency `c`. -/
def sumFor (invs : List Invoice) (c : String) : ℚ :=
  ((invs.filter (fun i => decide (currOf i = c))).map amtOf).sum

/-- Specification-side: number of invoices carrying currency `c`. -/
def countFor (invs : List Invoice) (c : String) : Nat :=
  (invs.filter (fun i => decide (currOf i = c))).length

/-- Specification-side: deduplicate a list keeping the first occurrence of
each element — the key order of a Python dict filled by the loop. -/
def firstKeys : List String → List String
  | [] => []
  | c :: rest => c :: (firstKeys rest).filter (fun k => decide (k ≠ c))

/-- Sample invoice: 6000 USD (used to instantiate universally quantified
results on concrete inputs). -/
def sampleInvoiceUSD : Invoice :=
  ⟨none, none, none, some 6000, none, some "USD", none, none, none, none, none⟩

/-- Sample invoice: 100 EUR. -/
def sampleInvoiceEUR : Invoice :=
  ⟨none, none, none, some 100, none, some "EUR", none, none, none, none, none⟩

/-- Sample line item with a zero cost. -/
def sampleZeroItem : LineItem := ⟨some "widget", some 0, none, none⟩

/-- Sample extracted invoice carrying one zero-cost line item and no total. -/
def sampleInvoiceLine : Invoice :=
  ⟨some "ACME", none, none, none, some [sampleZeroItem], none, none, none, none, none, none⟩

/-- Sample invoice that already carries a `currency` key before
normalization. -/
def sampleInvoiceWithCurrency : Invoice :=
  ⟨none, none, none, none, none, some "EUR", none, none, none, none, none⟩

/-- C6: converting between identical currency codes — registered or not —
returns the amount unchanged, with no rounding applied. -/
theorem convert_currency_identity (a : ℚ) (c : String) :
    convert_currency a c c = a := by
  simp [convert_currency]

/-- C5: for distinct codes that both have a rate in the table, conversion
pivots through USD — divide by the source rate (unless the source is USD),
multiply by the target rate — and rounds to 2 decimal places. -/
theorem convert_currency_pivot (a : ℚ) (f t : String) (rf rt : ℚ)
    (hft : f ≠ t)
    (hf : dictGet EXCHANGE_RATES f = some rf)
    (ht : dictGet EXCHANGE_RATES t = some rt) :
    convert_currency a f t = round2 ((if f ≠ "USD" then a / rf else a) * rt) := by
  simp only [convert_currency, if_neg hft, hf, ht]

/-- Witness for `convert_currency_pivot` at 100 EUR → GBP. -/
theorem convert_currency_pivot_witness :
    convert_currency 100 "EUR" "GBP" = round2 ((100 / (0.92 : ℚ)) * 0.79) := by
  have h := convert_currency_pivot 100 "EUR" "GBP" 0.92 0.79
    (by decide) (by rfl) (by rfl)
  simpa using h

/-- C7: when either code has no entry in the rate table, conversion returns
the amount unchanged (and, being a total function, never raises); in
particular for the unregistered code `"XXX"`. -/
theorem convert_currency_unknown_rate (a : ℚ) (f t : String)
    (hft : f ≠ t)
    (h : dictGet EXCHANGE_RATES f = none ∨ dictGet EXCHANGE_RATES t = none) :
    convert_currency a f t = a := by
  simp only [convert_currency, if_neg hft]
  rcases h with h | h
  · rw [h]
  · rw [h]
    cases dictGet EXCHANGE_RATES f
    · rfl
    · rfl

/-- Witness for `convert_currency_unknown_rate`: `convert(42, "XXX", "USD")`
returns 42. -/
theorem convert_currency_unknown_rate_witness :
    convert_currency 42 "XXX" "USD" = 42 :=
  convert_currency_unknown_rate 42 "XXX" "USD" (by decide) (Or.inl (by decide))

/-- C3 counterexample: on the empty list the summary does not carry an
empty `currencies_detected` list — the source's empty-input branch returns
a dict without that key at all. -/
theorem summary_empty_counterexample :
    (get_multi_currency_summary []).currencies_detected ≠ some [] := by
  decide

/-- C3 (amended): on the empty list the summary never raises and has
`total_in_usd = 0`, empty `total_by_currency`, empty `currency_breakdown`,
and no `currencies_detected` entry (the key is absent, not an empty list). -/
theorem summary_empty :
    get_multi_currency_summary [] =
      { total_by_currency := []
        total_in_usd := 0
        currency_breakdown := []
        currencies_detected := none } := by
  simp only [get_multi_currency_summary, List.isEmpty_nil, if_true, Summary.mk.injEq]
  norm_num

/-- C1: after the flagging step of `_process_single_invoice`, `flagged` is
true iff the record's USD-equivalent total (`total_amount_usd`, falling
back to `total_amount`, falling back to 0) strictly exceeds the 5000.0
threshold. -/
theorem flagged_iff_over_threshold (inv : Invoice) :
    (process_invoice_record inv).flagged = some true ↔
      usd_equivalent (process_invoice_record inv) > FLAGGED_AMOUNT_THRESHOLD := by
  simp [process_invoice_record, usd_equivalent]

/-- A two-digit rendering always has exactly two characters. -/
theorem twoDigitStr_length (n : Nat) (h : n < 100) :
    (twoDigitStr n).length = 2 := by
  revert h
  revert n
  decide

/-- C8: with the symbol included the result is the display symbol (the code
itself when no symbol is registered) directly against the number, otherwise
the number, a space and the code; the number always carries exactly two
fraction digits, and the integer part is grouped with thousands separators
exactly when the amount is at least 1000; the two concrete renderings of
the specification hold. -/
theorem format_currency_spec :
    (∀ (a : ℚ) (c : String),
      format_currency a c true =
        get_currency_symbol c ++
          (if a ≥ 1000 then renderFixed2 a true else renderFixed2 a false)) ∧
    (∀ (a : ℚ) (c : String),
      format_currency a c false =
        (if a ≥ 1000 then renderFixed2 a true else renderFixed2 a false)
          ++ " " ++ c) ∧
    (∀ (a : ℚ) (b : Bool), ∃ intPart : String,
      renderFixed2 a b =
        intPart ++ "." ++ twoDigitStr ((roundHalfEven (a * 100)).natAbs % 100) ∧
      (twoDigitStr ((roundHalfEven (a * 100)).natAbs % 100)).length = 2) ∧
    (∀ c : String, dictGet CURRENCY_DISPLAY_SYMBOLS c = none →
      get_currency_symbol c = c) ∧
    format_currency 1234.5 "USD" true = "$1,234.50" ∧
    format_currency 42.5 "USD" true = "$42.50" := by
  refine ⟨?_, ?_, ?_, ?_, ?_, ?_⟩
  · intro a c
    simp [format_currency]
  · intro a c
    simp [format_currency]
  · intro a b
    refine ⟨(if roundHalfEven (a * 100) < 0 then "-" else "") ++
      ⟨if b then (groupRev (Nat.repr ((roundHalfEven (a * 100)).natAbs / 100)).toList.reverse).reverse
        else (Nat.repr ((roundHalfEven (a * 100)).natAbs / 100)).toList⟩, ?_, ?_⟩
    · simp only [renderFixed2]
    · exact twoDigitStr_length _ (Nat.mod_lt _ (by norm_num))
  · intro c h
    simp [get_currency_symbol, h]
  · with_unfolding_all rfl
  · with_unfolding_all rfl

/-- Witness for `format_currency_spec`: the symbol fallback and the
no-symbol layout instantiated at concrete inputs. -/
theorem format_currency_spec_witness :
    get_currency_symbol "ZZZ" = "ZZZ" ∧
    format_currency 42.5 "EUR" false =
      (if (42.5 : ℚ) ≥ 1000 then renderFixed2 42.5 true
       else renderFixed2 42.5 false) ++ " " ++ "EUR" :=
  ⟨format_currency_spec.2.2.2.1 "ZZZ" (by rfl),
   format_currency_spec.2.1 42.5 "EUR"⟩

/-- The pattern loop returns the code of the first matching pattern in
list order. -/
theorem scanPatterns_eq_find (l : List (List Alt × String)) (t : String) :
    scanPatterns l t = (l.find? (fun p => patternMatches p.1 t)).map Prod.snd := by
  induction l with
  | nil => rfl
  | cons p rest ih =>
    obtain ⟨alts, code⟩ := p
    by_cases h : patternMatches alts t
    · simp [scanPatterns, h, List.find?_cons_of_pos]
    · simp [scanPatterns, h, ih, List.find?_cons_of_neg]

/-- The alias loop returns the code of the first alias occurring in the
(lowered) text, in dict insertion order. -/
theorem scanNames_eq_find (l : List (String × String)) (lowered : String) :
    scanNames l lowered =
      (l.find? (fun n => strContains lowered n.1)).map Prod.snd := by
  induction l with
  | nil => rfl
  | cons p rest ih =>
    obtain ⟨name, code⟩ := p
    by_cases h : strContains lowered name
    · simp [scanNames, h, List.find?_cons_of_pos]
    · simp [scanNames, h, ih, List.find?_cons_of_neg]

/-- The symbol loop returns the code of the first symbol occurring
literally in the text. -/
theorem scanSymbols_eq_find (l : List (String × String)) (t : String) :
    scanSymbols l t = (l.find? (fun s => strContains t s.1)).map Prod.snd := by
  induction l with
  | nil => rfl
  | cons p rest ih =>
    obtain ⟨sym, code⟩ := p
    by_cases h : strContains t sym
    · simp [scanSymbols, h, List.find?_cons_of_pos]
    · simp [scanSymbols, h, ih, List.find?_cons_of_neg]

/-- Tier characterization of `detect_currency` on non-empty text. -/
theorem detect_currency_eq_find (t : String) (ht : t ≠ "") :
    detect_currency t =
      match CURRENCY_PATTERNS.find? (fun p => patternMatches p.1 t) with
      | some p => (p.2, 0.9)
      | none =>
        match CURRENCY_NAMES.find? (fun n => strContains t.toLower n.1) with
        | some n => (n.2, 0.85)
        | none =>
          match CURRENCY_SYMBOLS.find? (fun s => strContains t s.1) with
          | some s => (s.2, 0.88)
          | none => ("USD", 0.5) := by
  rw [detect_currency, if_neg ht, scanPatterns_eq_find, scanNames_eq_find,
    scanSymbols_eq_find]
  cases CURRENCY_PATTERNS.find? (fun p => patternMatches p.1 t) with
  | some p => rfl
  | none =>
    cases CURRENCY_NAMES.find? (fun n => strContains t.toLower n.1) with
    | some n => rfl
    | none =>
      cases CURRENCY_SYMBOLS.find? (fun s => strContains t s.1) with
      | some s => rfl
      | none => rfl

/-- C4 (amended): empty text yields the (USD, 0.5) default; otherwise the
first matching pattern in list order wins with confidence 0.9, then the
first alias of the name map occurring in the lowercased text with 0.85,
then the first symbol occurring literally with 0.88, then the (USD, 0.5)
default.  The USD priority over a co-occurring "Euro" holds whenever the
USD pattern itself matches — in particular when the text has a dollar sign
not followed by whitespace (the pattern is `\$(?!\s)`). -/
theorem detect_currency_spec :
    (detect_currency "" = ("USD", 0.5)) ∧
    (∀ t : String, t ≠ "" →
      detect_currency t =
        match CURRENCY_PATTERNS.find? (fun p => patternMatches p.1 t) with
        | some p => (p.2, 0.9)
        | none =>
          match CURRENCY_NAMES.find? (fun n => strContains t.toLower n.1) with
          | some n => (n.2, 0.85)
          | none =>
            match CURRENCY_SYMBOLS.find? (fun s => strContains t s.1) with
            | some s => (s.2, 0.88)
            | none => ("USD", 0.5)) ∧
    (∀ t : String, t ≠ "" → altMatches t Alt.dollarNoWs = true →
      detect_currency t = ("USD", 0.9)) := by
  refine ⟨rfl, detect_currency_eq_find, ?_⟩
  intro t ht hd
  have hp : patternMatches [Alt.lit "USD", Alt.dollarNoWs, Alt.lit "US$"] t
      = true := by
    simp [patternMatches, hd]
  rw [detect_currency_eq_find t ht]
  have hfind : CURRENCY_PATTERNS.find? (fun p => patternMatches p.1 t) =
      some ([Alt.lit "USD", Alt.dollarNoWs, Alt.lit "US$"], "USD") := by
    rw [CURRENCY_PATTERNS]
    exact List.find?_cons_of_pos _ hp
  rw [hfind]

/-- C4 counterexample: a text containing both a dollar sign and the word
"Euro" on which detection returns EUR, not USD — the `\$(?!\s)` alternative
of the USD pattern rejects a dollar sign followed by a space, so the USD
pattern does not match at all. -/
theorem detect_currency_dollar_euro_counterexample :
    strContains "Euro: $ 5" "$" = true ∧
    strContains "Euro: $ 5" "Euro" = true ∧
    detect_currency "Euro: $ 5" = ("EUR", 0.9) := by
  refine ⟨by rfl, by rfl, by with_unfolding_all rfl⟩

/-- Witness for `detect_currency_spec`: the USD pattern beats "Euro" on
`"$100 Euro"`, and the characterization instantiates on `"€450"`. -/
theorem detect_currency_spec_witness :
    detect_currency "$100 Euro" = ("USD", 0.9) ∧
    detect_currency "€450" = ("EUR", 0.9) := by
  constructor
  · exact detect_currency_spec.2.2 "$100 Euro" (by decide) (by rfl)
  · exact (detect_currency_spec.2.1 "€450" (by decide)).trans
      (by with_unfolding_all rfl)

/-- C9 (amended): normalization is total (never raises) and preserves every
key/value pair other than the derived currency fields it (over)writes:
`vendor_name`, `invoice_number`, `invoice_date`, `total_amount` and
`flagged` are untouched; a missing `total_amount` leaves the derived total
fields untouched and a missing `line_items` key stays missing; line items
are mapped in place, each keeping its `description` and `cost` (so a
zero-cost item is retained), untouched when it has no `cost` key, and
gaining `cost_formatted` and `cost_usd` when it has one. -/
theorem normalize_currency_data_frame :
    (∀ inv : Invoice,
      (normalize_currency_data inv).vendor_name = inv.vendor_name ∧
      (normalize_currency_data inv).invoice_number = inv.invoice_number ∧
      (normalize_currency_data inv).invoice_date = inv.invoice_date ∧
      (normalize_currency_data inv).total_amount = inv.total_amount ∧
      (normalize_currency_data inv).flagged = inv.flagged) ∧
    (∀ inv : Invoice, inv.total_amount = none →
      (normalize_currency_data inv).total_amount_formatted =
        inv.total_amount_formatted ∧
      (normalize_currency_data inv).total_amount_usd = inv.total_amount_usd) ∧
    (∀ inv : Invoice, inv.line_items = none →
      (normalize_currency_data inv).line_items = none) ∧
    (∀ (inv : Invoice) (items : List LineItem), inv.line_items = some items →
      (normalize_currency_data inv).line_items =
        some (items.map
          (enrich_line_item (detect_currency (invoice_detection_text inv)).1)) ∧
      (items.map
        (enrich_line_item (detect_currency (invoice_detection_text inv)).1)).length
          = items.length) ∧
    (∀ (d : String) (it : LineItem),
      (enrich_line_item d it).description = it.description ∧
      (enrich_line_item d it).cost = it.cost ∧
      (it.cost = none → enrich_line_item d it = it) ∧
      (∀ c : ℚ, it.cost = some c →
        (enrich_line_item d it).cost_formatted = some (format_currency c d true) ∧
        (enrich_line_item d it).cost_usd = some (convert_currency c d "USD"))) := by
  refine ⟨?_, ?_, ?_, ?_, ?_⟩
  · intro inv
    cases hta : inv.total_amount <;> cases hli : inv.line_items <;>
      simp [normalize_currency_data, hta, hli]
  · intro inv hta
    cases hli : inv.line_items <;>
      simp [normalize_currency_data, hta, hli]
  · intro inv hli
    cases hta : inv.total_amount <;>
      simp [normalize_currency_data, hta, hli]
  · intro inv items hli
    cases hta : inv.total_amount <;>
      simp [normalize_currency_data, hta, hli, invoice_detection_text]
  · intro d it
    cases hc : it.cost <;>
      simp [enrich_line_item, hc]

/-- C9 counterexample: an invoice that already carries the key/value pair
`currency ↦ "EUR"` loses it — normalization overwrites `currency` with the
detected code (here the USD default), so not every pre-existing pair
survives with its original value. -/
theorem normalize_currency_data_overwrites_counterexample :
    sampleInvoiceWithCurrency.currency = some "EUR" ∧
    (normalize_currency_data sampleInvoiceWithCurrency).currency = some "USD" := by
  constructor
  · rfl
  · with_unfolding_all rfl

/-- Witness for `normalize_currency_data_frame`: the zero-cost line item of
the sample invoice is retained and enriched. -/
theorem normalize_currency_data_frame_witness :
    (normalize_currency_data sampleInvoiceLine).line_items =
      some ([sampleZeroItem].map
        (enrich_line_item
          (detect_currency (invoice_detection_text sampleInvoiceLine)).1)) ∧
    ([sampleZeroItem].map
      (enrich_line_item
        (detect_currency (invoice_detection_text sampleInvoiceLine)).1)).length
        = 1 :=
  (normalize_currency_data_frame.2.2.2.1 sampleInvoiceLine [sampleZeroItem]
    (by rfl))

/-- A code returned by the pattern loop comes from the pattern list. -/
theorem scanPatterns_mem (l : List (List Alt × String)) (t code : String) :
    scanPatterns l t = some code → ∃ p, p ∈ l ∧ p.2 = code := by
  induction l with
  | nil => intro h; simp [scanPatterns] at h
  | cons q rest ih =>
    obtain ⟨alts, c⟩ := q
    intro h
    rw [scanPatterns] at h
    split_ifs at h
    · exact ⟨(alts, c), List.mem_cons_self _ _, Option.some.inj h⟩
    · obtain ⟨p, hp, hc⟩ := ih h
      exact ⟨p, List.mem_cons_of_mem _ hp, hc⟩

/-- A code returned by the alias loop comes from the name map. -/
theorem scanNames_mem (l : List (String × String)) (lowered code : String) :
    scanNames l lowered = some code → ∃ p, p ∈ l ∧ p.2 = code := by
  induction l with
  | nil => intro h; simp [scanNames] at h
  | cons q rest ih =>
    obtain ⟨name, c⟩ := q
    intro h
    rw [scanNames] at h
    split_ifs at h
    · exact ⟨(name, c), List.mem_cons_self _ _, Option.some.inj h⟩
    · obtain ⟨p, hp, hc⟩ := ih h
      exact ⟨p, List.mem_cons_of_mem _ hp, hc⟩

/-- A code returned by the symbol loop comes from the symbol map. -/
theorem scanSymbols_mem (l : List (String × String)) (t code : String) :
    scanSymbols l t = some code → ∃ p, p ∈ l ∧ p.2 = code := by
  induction l with
  | nil => intro h; simp [scanSymbols] at h
  | cons q rest ih =>
    obtain ⟨sym, c⟩ := q
    intro h
    rw [scanSymbols] at h
    split_ifs at h
    · exact ⟨(sym, c), List.mem_cons_self _ _, Option.some.inj h⟩
    · obtain ⟨p, hp, hc⟩ := ih h
      exact ⟨p, List.mem_cons_of_mem _ hp, hc⟩

/-- Every detection outcome is the USD default or a code drawn from one of
the three concrete tables, with the tier's fixed confidence. -/
theorem detect_currency_cases (t : String) :
    detect_currency t = ("USD", 0.5) ∨
    (∃ p, p ∈ CURRENCY_PATTERNS ∧ detect_currency t = (p.2, 0.9)) ∨
    (∃ n, n ∈ CURRENCY_NAMES ∧ detect_currency t = (n.2, 0.85)) ∨
    (∃ s, s ∈ CURRENCY_SYMBOLS ∧ detect_currency t = (s.2, 0.88)) := by
  by_cases ht : t = ""
  · left
    rw [ht]
    rfl
  · rw [detect_currency, if_neg ht]
    cases hp : scanPatterns CURRENCY_PATTERNS t with
    | some code =>
      right; left
      obtain ⟨p, hmem, hc⟩ := scanPatterns_mem _ _ _ hp
      exact ⟨p, hmem, by rw [hc]⟩
    | none =>
      cases hn : scanNames CURRENCY_NAMES t.toLower with
      | some code =>
        right; right; left
        obtain ⟨n, hmem, hc⟩ := scanNames_mem _ _ _ hn
        exact ⟨n, hmem, by rw [hc]⟩
      | none =>
        cases hs : scanSymbols CURRENCY_SYMBOLS t with
        | some code =>
          right; right; right
          obtain ⟨s, hmem, hc⟩ := scanSymbols_mem _ _ _ hs
          exact ⟨s, hmem, by rw [hc]⟩
        | none =>
          left
          rfl

/-- Every code of the pattern list has an exchange rate. -/
theorem patterns_have_rates :
    ∀ p ∈ CURRENCY_PATTERNS, (dictGet EXCHANGE_RATES p.2).isSome = true := by
  decide

/-- Every code of the name map has an exchange rate. -/
theorem names_have_rates :
    ∀ p ∈ CURRENCY_NAMES, (dictGet EXCHANGE_RATES p.2).isSome = true := by
  decide

/-- Every code of the symbol map has an exchange rate. -/
theorem symbols_have_rates :
    ∀ p ∈ CURRENCY_SYMBOLS, (dictGet EXCHANGE_RATES p.2).isSome = true := by
  decide

/-- A code with a registered rate can never reach the unknown-rate fallback
branch when converting to USD. -/
theorem fallback_unreachable_of_rate (c : String)
    (h : (dictGet EXCHANGE_RATES c).isSome = true) :
    usedUnknownRateFallback c "USD" = false := by
  obtain ⟨r, hr⟩ := Option.isSome_iff_exists.mp h
  simp [usedUnknownRateFallback, hr,
    show dictGet EXCHANGE_RATES "USD" = some 1.0 from rfl]

/-- C10: detection always returns one of the four fixed confidences and a
code registered in the rate table, so the USD conversions performed during
normalization (for `total_amount_usd` and every `cost_usd`) can never take
the unknown-rate fallback branch of `convert_currency`. -/
theorem detect_currency_rate_invariant :
    (∀ t : String,
      (dictGet EXCHANGE_RATES (detect_currency t).1).isSome = true ∧
      ((detect_currency t).2 = 0.5 ∨ (detect_currency t).2 = 0.85 ∨
       (detect_currency t).2 = 0.88 ∨ (detect_currency t).2 = 0.9) ∧
      usedUnknownRateFallback (detect_currency t).1 "USD" = false) ∧
    (∀ inv : Invoice,
      usedUnknownRateFallback
        (detect_currency (invoice_detection_text inv)).1 "USD" = false) := by
  have main : ∀ t : String,
      (dictGet EXCHANGE_RATES (detect_currency t).1).isSome = true ∧
      ((detect_currency t).2 = 0.5 ∨ (detect_currency t).2 = 0.85 ∨
       (detect_currency t).2 = 0.88 ∨ (detect_currency t).2 = 0.9) := by
    intro t
    rcases detect_currency_cases t with h | ⟨p, hm, h⟩ | ⟨n, hm, h⟩ | ⟨s, hm, h⟩
    · rw [h]
      exact ⟨rfl, Or.inl rfl⟩
    · rw [h]
      exact ⟨patterns_have_rates p hm, Or.inr (Or.inr (Or.inr rfl))⟩
    · rw [h]
      exact ⟨names_have_rates n hm, Or.inr (Or.inl rfl)⟩
    · rw [h]
      exact ⟨symbols_have_rates s hm, Or.inr (Or.inr (Or.inl rfl))⟩
  refine ⟨fun t => ⟨(main t).1, (main t).2,
    fallback_unreachable_of_rate _ (main t).1⟩, fun inv =>
    fallback_unreachable_of_rate _ (main (invoice_detection_text inv)).1⟩

/-- Appending on the right does not change a lookup that already hits. -/
theorem dictGet_append_of_some {α : Type} (l l' : List (String × α))
    (k : String) (v : α) (h : dictGet l k = some v) :
    dictGet (l ++ l') k = some v := by
  induction l with
  | nil => simp [dictGet] at h
  | cons p rest ih =>
    obtain ⟨k0, v0⟩ := p
    by_cases hk : k0 = k
    · have : v0 = v := by simpa [dictGet, hk] using h
      simp [dictGet, hk, this]
    · have h' : dictGet rest k = some v := by simpa [dictGet, hk] using h
      simp [dictGet, hk, ih h']

/-- A lookup that misses the left list falls through to the right list. -/
theorem dictGet_append_of_none {α : Type} (l l' : List (String × α))
    (k : String) (h : dictGet l k = none) :
    dictGet (l ++ l') k = dictGet l' k := by
  induction l with
  | nil => simp [dictGet]
  | cons p rest ih =>
    obtain ⟨k0, v0⟩ := p
    by_cases hk : k0 = k
    · simp [dictGet, hk] at h
    · have h' : dictGet rest k = none := by simpa [dictGet, hk] using h
      simp [dictGet, hk, ih h']

/-- A lookup hits exactly when the key occurs in the key list. -/
theorem dictGet_isSome_iff {α : Type} (l : List (String × α)) (k : String) :
    (dictGet l k).isSome = true ↔ k ∈ l.map Prod.fst := by
  induction l with
  | nil => simp [dictGet]
  | cons p rest ih =>
    obtain ⟨k0, v0⟩ := p
    by_cases hk : k0 = k
    · simp [dictGet, hk]
    · simp [dictGet, hk, ih, Ne.symm hk]

/-- `incTotal` keeps the key list unchanged. -/
theorem incTotal_keys (l : List (String × ℚ)) (c : String) (a : ℚ) :
    (incTotal l c a).map Prod.fst = l.map Prod.fst := by
  induction l with
  | nil => rfl
  | cons p rest ih =>
    obtain ⟨k, v⟩ := p
    by_cases hk : k = c
    · simp [incTotal, hk]
    · simp [incTotal, hk, ih]

/-- `incTotal` adds the amount at the updated key. -/
theorem incTotal_get_self (l : List (String × ℚ)) (c : String) (a : ℚ) :
    dictGet (incTotal l c a) c = (dictGet l c).map (· + a) := by
  induction l with
  | nil => rfl
  | cons p rest ih =>
    obtain ⟨k, v⟩ := p
    by_cases hk : k = c
    · simp [incTotal, dictGet, hk]
    · simp [incTotal, dictGet, hk, ih]

/-- `incTotal` leaves every other key's value unchanged. -/
theorem incTotal_get_other (l : List (String × ℚ)) (c k : String) (a : ℚ)
    (hk : k ≠ c) : dictGet (incTotal l c a) k = dictGet l k := by
  induction l with
  | nil => rfl
  | cons p rest ih =>
    obtain ⟨k0, v0⟩ := p
    by_cases h0 : k0 = c
    · subst h0
      simp [incTotal, dictGet, Ne.symm hk]
    · by_cases h1 : k0 = k
      · simp [incTotal, dictGet, h0, h1, hk]
      · simp [incTotal, dictGet, h0, h1, ih]

/-- `incStats` keeps the key list unchanged. -/
theorem incStats_keys (l : List (String × CurrencyStats)) (c : String)
    (a : ℚ) : (incStats l c a).map Prod.fst = l.map Prod.fst := by
  induction l with
  | nil => rfl
  | cons p rest ih =>
    obtain ⟨k, v⟩ := p
    by_cases hk : k = c
    · simp [incStats, hk]
    · simp [incStats, hk, ih]

/-- `incStats` bumps count and total at the updated key. -/
theorem incStats_get_self (l : List (String × CurrencyStats)) (c : String)
    (a : ℚ) :
    dictGet (incStats l c a) c =
      (dictGet l c).map (fun s => ⟨s.count + 1, s.total + a, s.average⟩) := by
  induction l with
  | nil => rfl
  | cons p rest ih =>
    obtain ⟨k, v⟩ := p
    by_cases hk : k = c
    · simp [incStats, dictGet, hk]
    · simp [incStats, dictGet, hk, ih]

/-- `incStats` leaves every other key's value unchanged. -/
theorem incStats_get_other (l : List (String × CurrencyStats)) (c k : String)
    (a : ℚ) (hk : k ≠ c) : dictGet (incStats l c a) k = dictGet l k := by
  induction l with
  | nil => rfl
  | cons p rest ih =>
    obtain ⟨k0, v0⟩ := p
    by_cases h0 : k0 = c
    · subst h0
      simp [incStats, dictGet, Ne.symm hk]
    · by_cases h1 : k0 = k
      · simp [incStats, dictGet, h0, h1, hk]
      · simp [incStats, dictGet, h0, h1, ih]

/-- Lookup commutes with a value-only map. -/
theorem dictGet_map_value {α β : Type} (f : α → β) (l : List (String × α))
    (k : String) :
    dictGet (l.map (fun p => (p.1, f p.2))) k = (dictGet l k).map f := by
  induction l with
  | nil => rfl
  | cons p rest ih =>
    obtain ⟨k0, v0⟩ := p
    by_cases hk : k0 = k
    · simp [dictGet, hk]
    · simp [dictGet, hk, ih]

/-- `firstKeys` preserves membership. -/
theorem mem_firstKeys (L : List String) (k : String) :
    k ∈ firstKeys L ↔ k ∈ L := by
  induction L with
  | nil => simp [firstKeys]
  | cons d L ih =>
    simp only [firstKeys, List.mem_cons, List.mem_filter, ih,
      decide_eq_true_eq]
    constructor
    · rintro (h | ⟨h, _⟩)
      · exact Or.inl h
      · exact Or.inr h
    · rintro (h | h)
      · exact Or.inl h
      · by_cases hd : k = d
        · exact Or.inl hd
        · exact Or.inr ⟨h, hd⟩

/-- `firstKeys` never repeats a key. -/
theorem firstKeys_nodup (L : List String) : (firstKeys L).Nodup := by
  induction L with
  | nil => exact List.nodup_nil
  | cons d L ih =>
    refine List.nodup_cons.mpr ⟨?_, ih.filter _⟩
    intro hmem
    have := (List.mem_filter.mp hmem).2
    simp at this

/-- Effect of appending one element on the first-occurrence key list. -/
theorem firstKeys_append_single (L : List String) (c : String) :
    firstKeys (L ++ [c]) =
      if c ∈ L then firstKeys L else firstKeys L ++ [c] := by
  induction L with
  | nil => simp [firstKeys]
  | cons d L ih =>
    rw [List.cons_append, firstKeys, ih]
    by_cases hc : c ∈ L
    · rw [if_pos hc, if_pos (List.mem_cons_of_mem d hc), firstKeys]
    · by_cases hdc : c = d
      · subst hdc
        rw [if_neg hc, if_pos (List.mem_cons_self c L), firstKeys,
          List.filter_append]
        simp
      · have hm : c ∉ d :: L := by
          simp [hdc, hc]
        rw [if_neg hc, if_neg hm, firstKeys, List.filter_append]
        simp [hdc]

/-- Effect of one more invoice on a per-currency sum. -/
theorem sumFor_append_single (invs : List Invoice) (i : Invoice)
    (c : String) :
    sumFor (invs ++ [i]) c =
      sumFor invs c + (if currOf i = c then amtOf i else 0) := by
  by_cases h : currOf i = c
  · simp [sumFor, List.filter_append, h]
  · simp [sumFor, List.filter_append, h]

/-- Effect of one more invoice on a per-currency count. -/
theorem countFor_append_single (invs : List Invoice) (i : Invoice)
    (c : String) :
    countFor (invs ++ [i]) c =
      countFor invs c + (if currOf i = c then 1 else 0) := by
  by_cases h : currOf i = c
  · simp [countFor, List.filter_append, h]
  · simp [countFor, List.filter_append, h]

/-- A currency never seen sums to zero. -/
theorem sumFor_eq_zero_of_not_mem (invs : List Invoice) (c : String)
    (h : c ∉ invs.map currOf) : sumFor invs c = 0 := by
  have hf : invs.filter (fun i => decide (currOf i = c)) = [] := by
    rw [List.filter_eq_nil_iff]
    intro i hi
    simp only [decide_eq_true_eq]
    intro hc
    exact h (hc ▸ List.mem_map_of_mem currOf hi)
  simp [sumFor, hf]

/-- A currency never seen counts zero invoices. -/
theorem countFor_eq_zero_of_not_mem (invs : List Invoice) (c : String)
    (h : c ∉ invs.map currOf) : countFor invs c = 0 := by
  have hf : invs.filter (fun i => decide (currOf i = c)) = [] := by
    rw [List.filter_eq_nil_iff]
    intro i hi
    simp only [decide_eq_true_eq]
    intro hc
    exact h (hc ▸ List.mem_map_of_mem currOf hi)
  simp [countFor, hf]

/-- A currency that occurs counts at least one invoice. -/
theorem countFor_pos_of_mem (invs : List Invoice) (c : String)
    (h : c ∈ invs.map currOf) : 0 < countFor invs c := by
  obtain ⟨i, hi, hc⟩ := List.mem_map.mp h
  have : i ∈ invs.filter (fun i => decide (currOf i = c)) :=
    List.mem_filter.mpr ⟨hi, by simp [hc]⟩
  exact List.length_pos.mpr (List.ne_nil_of_mem this)

/-- Folding an additive accumulator is summing a map. -/
theorem foldl_add_map {α : Type} (g : α → ℚ) (l : List α) :
    ∀ init : ℚ, List.foldl (fun s p => s + g p) init l = init + (l.map g).sum := by
  induction l with
  | nil => intro init; simp
  | cons p rest ih => intro init; simp [ih, add_assoc]

/-- An association list is determined by its (duplicate-free) key list and
its lookups. -/
theorem dictGet_reconstruct {α : Type} (f : String → α) :
    ∀ (l : List (String × α)) (ks : List String),
      l.map Prod.fst = ks → ks.Nodup →
      (∀ c ∈ ks, dictGet l c = some (f c)) →
      l = ks.map (fun c => (c, f c)) := by
  intro l
  induction l with
  | nil =>
    intro ks hk _ _
    simp [← hk]
  | cons p rest ih =>
    intro ks hk hnd hget
    obtain ⟨k, v⟩ := p
    cases ks with
    | nil => simp at hk
    | cons k0 ks' =>
      rw [List.map_cons] at hk
      injection hk with h1 h2
      subst h1
      have hv : v = f k := by
        have := hget k (List.mem_cons_self _ _)
        simpa [dictGet] using this
      have hnotin : k ∉ ks' := (List.nodup_cons.mp hnd).1
      have hrest : ∀ c ∈ ks', dictGet rest c = some (f c) := by
        intro c hc
        have hne : k ≠ c := fun he => hnotin (he ▸ hc)
        have := hget c (List.mem_cons_of_mem _ hc)
        simpa [dictGet, hne] using this
      have htail := ih ks' h2 (List.nodup_cons.mp hnd).2 hrest
      simp [List.map_cons, hv, htail]

/-- Appending a fresh single entry does not change other keys' lookups. -/
theorem dictGet_append_single_other {α : Type} (l : List (String × α))
    (c0 k : String) (v : α) (hk : k ≠ c0) :
    dictGet (l ++ [(c0, v)]) k = dictGet l k := by
  cases h : dictGet l k with
  | some w => exact dictGet_append_of_some _ _ _ _ h
  | none =>
    rw [dictGet_append_of_none _ _ _ h]
    simp [dictGet, Ne.symm hk]

/-- Invariant of the accumulation loop of `get_multi_currency_summary`:
after folding any invoice list, both dicts carry the currencies in order of
first appearance, the totals dict maps each seen currency to its raw sum,
and the breakdown dict maps it to its count, raw sum and a zero
placeholder average. -/
theorem summary_fold_spec (invs : List Invoice) :
    ((invs.foldl summaryStep ([], [])).1.map Prod.fst
        = firstKeys (invs.map currOf)) ∧
    ((invs.foldl summaryStep ([], [])).2.map Prod.fst
        = firstKeys (invs.map currOf)) ∧
    (∀ c, dictGet (invs.foldl summaryStep ([], [])).1 c =
        if c ∈ invs.map currOf then some (sumFor invs c) else none) ∧
    (∀ c, dictGet (invs.foldl summaryStep ([], [])).2 c =
        if c ∈ invs.map currOf then some ⟨countFor invs c, sumFor invs c, 0⟩
        else none) := by
  induction invs using List.reverseRecOn with
  | nil =>
    refine ⟨rfl, rfl, fun c => ?_, fun c => ?_⟩ <;>
      simp [dictGet, firstKeys]
  | append_singleton l i ih =>
    obtain ⟨hkT, hkB, hgT, hgB⟩ := ih
    simp only [List.foldl_append, List.foldl_cons, List.foldl_nil,
      List.map_append, List.map_cons, List.map_nil]
    by_cases hmem : currOf i ∈ l.map currOf
    · have hsome : (dictGet (l.foldl summaryStep ([], [])).1 (currOf i)).isSome
          = true := by
        rw [hgT (currOf i), if_pos hmem]
        rfl
      have hstep : summaryStep (l.foldl summaryStep ([], [])) i =
          (incTotal (l.foldl summaryStep ([], [])).1 (currOf i) (amtOf i),
           incStats (l.foldl summaryStep ([], [])).2 (currOf i) (amtOf i)) := by
        rw [summaryStep]
        simp only [hsome, if_true]
      rw [hstep]
      refine ⟨?_, ?_, fun c => ?_, fun c => ?_⟩
      · rw [incTotal_keys, hkT, firstKeys_append_single, if_pos hmem]
      · rw [incStats_keys, hkB, firstKeys_append_single, if_pos hmem]
      · by_cases hc : c = currOf i
        · subst hc
          rw [incTotal_get_self, hgT (currOf i), if_pos hmem, if_pos (by simp),
            sumFor_append_single]
          simp
        · rw [incTotal_get_other _ _ _ _ hc, hgT c, sumFor_append_single,
            if_neg (Ne.symm hc)]
          have hiff : (c ∈ List.map currOf l ++ [currOf i]) ↔
              c ∈ List.map currOf l := by
            simp only [List.mem_append, List.mem_singleton]
            exact or_iff_left hc
          by_cases hm : c ∈ List.map currOf l
          · rw [if_pos hm, if_pos (hiff.mpr hm)]
            simp
          · rw [if_neg hm, if_neg (fun hx => hm (hiff.mp hx))]
      · by_cases hc : c = currOf i
        · subst hc
          rw [incStats_get_self, hgB (currOf i), if_pos hmem, if_pos (by simp),
            sumFor_append_single, countFor_append_single]
          simp
        · rw [incStats_get_other _ _ _ _ hc, hgB c, sumFor_append_single,
            countFor_append_single, if_neg (Ne.symm hc), if_neg (Ne.symm hc)]
          have hiff : (c ∈ List.map currOf l ++ [currOf i]) ↔
              c ∈ List.map currOf l := by
            simp only [List.mem_append, List.mem_singleton]
            exact or_iff_left hc
          by_cases hm : c ∈ List.map currOf l
          · rw [if_pos hm, if_pos (hiff.mpr hm)]
            simp
          · rw [if_neg hm, if_neg (fun hx => hm (hiff.mp hx))]
    · have hnone : dictGet (l.foldl summaryStep ([], [])).1 (currOf i)
          = none := by
        rw [hgT (currOf i), if_neg hmem]
      have hstep : summaryStep (l.foldl summaryStep ([], [])) i =
          (incTotal ((l.foldl summaryStep ([], [])).1 ++ [(currOf i, 0)])
            (currOf i) (amtOf i),
           incStats ((l.foldl summaryStep ([], [])).2 ++ [(currOf i, ⟨0, 0, 0⟩)])
            (currOf i) (amtOf i)) := by
        rw [summaryStep]
        simp only [hnone, Option.isSome_none, Bool.false_eq_true, if_false]
      rw [hstep]
      have hTapp : dictGet ((l.foldl summaryStep ([], [])).1 ++ [(currOf i, 0)])
          (currOf i) = some 0 := by
        rw [dictGet_append_of_none _ _ _ hnone]
        simp [dictGet]
      have hBnone : dictGet (l.foldl summaryStep ([], [])).2 (currOf i)
          = none := by
        rw [hgB (currOf i), if_neg hmem]
      have hBapp : dictGet
          ((l.foldl summaryStep ([], [])).2 ++
            [(currOf i, (⟨0, 0, 0⟩ : CurrencyStats))])
          (currOf i) = some ⟨0, 0, 0⟩ := by
        rw [dictGet_append_of_none _ _ _ hBnone]
        simp [dictGet]
      refine ⟨?_, ?_, fun c => ?_, fun c => ?_⟩
      · rw [incTotal_keys, List.map_append, hkT, firstKeys_append_single,
          if_neg hmem]
        rfl
      · rw [incStats_keys, List.map_append, hkB, firstKeys_append_single,
          if_neg hmem]
        rfl
      · by_cases hc : c = currOf i
        · subst hc
          rw [incTotal_get_self, hTapp, if_pos (by simp),
            sumFor_append_single, sumFor_eq_zero_of_not_mem _ _ hmem]
          simp
        · rw [incTotal_get_other _ _ _ _ hc,
            dictGet_append_single_other _ _ _ _ hc, hgT c,
            sumFor_append_single, if_neg (Ne.symm hc)]
          have hiff : (c ∈ List.map currOf l ++ [currOf i]) ↔
              c ∈ List.map currOf l := by
            simp only [List.mem_append, List.mem_singleton]
            exact or_iff_left hc
          by_cases hm : c ∈ List.map currOf l
          · rw [if_pos hm, if_pos (hiff.mpr hm)]
            simp
          · rw [if_neg hm, if_neg (fun hx => hm (hiff.mp hx))]
      · by_cases hc : c = currOf i
        · subst hc
          rw [incStats_get_self, hBapp, if_pos (by simp),
            sumFor_append_single, countFor_append_single,
            sumFor_eq_zero_of_not_mem _ _ hmem,
            countFor_eq_zero_of_not_mem _ _ hmem]
          simp
        · rw [incStats_get_other _ _ _ _ hc,
            dictGet_append_single_other _ _ _ _ hc, hgB c,
            sumFor_append_single, countFor_append_single,
            if_neg (Ne.symm hc), if_neg (Ne.symm hc)]
          have hiff : (c ∈ List.map currOf l ++ [currOf i]) ↔
              c ∈ List.map currOf l := by
            simp only [List.mem_append, List.mem_singleton]
            exact or_iff_left hc
          by_cases hm : c ∈ List.map currOf l
          · rw [if_pos hm, if_pos (hiff.mpr hm)]
            simp
          · rw [if_neg hm, if_neg (fun hx => hm (hiff.mp hx))]

/-- Lookup commutes with a key-preserving map of entries. -/
theorem dictGet_map_pair {α β : Type} (F : String × α → β)
    (l : List (String × α)) (k : String) :
    dictGet (l.map (fun p => (p.1, F p))) k =
      (dictGet l k).map (fun v => F (k, v)) := by
  induction l with
  | nil => rfl
  | cons p rest ih =>
    obtain ⟨k0, v0⟩ := p
    by_cases hk : k0 = k
    · subst hk
      simp [dictGet]
    · simp [dictGet, hk, ih]

/-- C2: on a non-empty batch the summary lists the currencies in order of
first appearance (exactly the currencies occurring in the batch, with USD
defaulted for invoices without a `currency` key); maps each currency in
`total_by_currency` to its raw sum rounded to 2 decimals; maps it in
`currency_breakdown` to its invoice count, raw summed total and
`round(total/count, 2)` average; and reports as `total_in_usd` the rounded
sum, over the detected currencies, of one conversion per currency of that
currency's raw summed total to USD (sum-then-convert). -/
theorem get_multi_currency_summary_spec (invs : List Invoice)
    (hne : invs ≠ []) :
    ((get_multi_currency_summary invs).currencies_detected
        = some (firstKeys (invs.map currOf))) ∧
    (∀ c, c ∈ firstKeys (invs.map currOf) ↔ c ∈ invs.map currOf) ∧
    (∀ c, c ∈ invs.map currOf →
      dictGet (get_multi_currency_summary invs).total_by_currency c
          = some (round2 (sumFor invs c)) ∧
      dictGet (get_multi_currency_summary invs).currency_breakdown c
          = some ⟨countFor invs c, sumFor invs c,
              round2 (sumFor invs c / (countFor invs c : ℚ))⟩) ∧
    ((get_multi_currency_summary invs).total_in_usd
        = round2 (((firstKeys (invs.map currOf)).map
            (fun c => convert_currency (sumFor invs c) c "USD")).sum)) := by
  have hE : invs.isEmpty = false := by
    cases invs with
    | nil => exact absurd rfl hne
    | cons a l => rfl
  obtain ⟨hkT, hkB, hgT, hgB⟩ := summary_fold_spec invs
  refine ⟨?_, fun c => mem_firstKeys _ c, fun c hc => ⟨?_, ?_⟩, ?_⟩
  · have h1 : (get_multi_currency_summary invs).currencies_detected
        = some ((invs.foldl summaryStep ([], [])).1.map Prod.fst) := by
      simp only [get_multi_currency_summary, hE, Bool.false_eq_true, if_false]
    rw [h1, hkT]
  · have h2 : (get_multi_currency_summary invs).total_by_currency
        = (invs.foldl summaryStep ([], [])).1.map
            (fun p => (p.1, round2 p.2)) := by
      simp only [get_multi_currency_summary, hE, Bool.false_eq_true, if_false]
    rw [h2, dictGet_map_value, hgT c, if_pos hc]
    rfl
  · have h3 : (get_multi_currency_summary invs).currency_breakdown
        = (invs.foldl summaryStep ([], [])).2.map
            (fun p => (p.1,
              { p.2 with
                average := if p.2.count > 0 then round2 (p.2.total / p.2.count)
                           else 0 })) := by
      simp only [get_multi_currency_summary, hE, Bool.false_eq_true, if_false]
    rw [h3, dictGet_map_pair, hgB c, if_pos hc]
    have hcount := countFor_pos_of_mem invs c hc
    simp [hcount]
  · have h4 : (get_multi_currency_summary invs).total_in_usd
        = round2 ((invs.foldl summaryStep ([], [])).1.foldl
            (fun s p => s + convert_currency p.2 p.1 "USD") 0) := by
      simp only [get_multi_currency_summary, hE, Bool.false_eq_true, if_false]
    have hT : (invs.foldl summaryStep ([], [])).1 =
        (firstKeys (invs.map currOf)).map (fun c => (c, sumFor invs c)) := by
      apply dictGet_reconstruct (fun c => sumFor invs c) _ _ hkT
        (firstKeys_nodup _)
      intro c hc
      rw [hgT c, if_pos ((mem_firstKeys _ c).mp hc)]
    rw [h4, foldl_add_map, hT, List.map_map]
    simp only [zero_add]
    rfl

/-- Witness for `get_multi_currency_summary_spec` on a concrete two-invoice
batch (6000 USD and 100 EUR). -/
theorem get_multi_currency_summary_spec_witness :
    dictGet (get_multi_currency_summary
        [sampleInvoiceUSD, sampleInvoiceEUR]).total_by_currency "USD"
      = some (round2 (sumFor [sampleInvoiceUSD, sampleInvoiceEUR] "USD")) ∧
    (get_multi_currency_summary
        [sampleInvoiceUSD, sampleInvoiceEUR]).currencies_detected
      = some (firstKeys ([sampleInvoiceUSD, sampleInvoiceEUR].map currOf)) := by
  have h := get_multi_currency_summary_spec [sampleInvoiceUSD, sampleInvoiceEUR]
    (List.cons_ne_nil _ _)
  exact ⟨(h.2.2.1 "USD" (by decide)).1, h.1⟩
